import Mathlib

/-!
Verification of the feature-store service and progress notifier of the
autonomous-coding repository.

The feature store is exposed through the handlers of `src/api/routes.py`;
the progress notifier is `send_progress_webhook` in `src/progress.py`.
The handlers are embedded as pure functions over an explicit store state
(a list of feature records); the SQL queries issued through the ORM
(filter, order by `(priority, id)`, count, offset/limit) are embedded as
the corresponding list operations.
-/

namespace AutoCoding

/-- A feature record, as stored in the `features` table and serialized by
`to_dict` (fields per `FeatureResponse` in `src/api/routes.py` and the
data model of the spec). -/
structure Feature where
  id : Int
  priority : Int
  category : String
  name : String
  description : String
  steps : List String
  passes : Bool
deriving Repr, DecidableEq

/-- The store contents: the rows of the `features` table.
Modelled from the spec: the record store itself (`api/database.py`) is not
under `src/`; per spec section 4.1 it is a durable table keyed by `id`
supporting ordered scan, point lookup, insert with autoincrement id,
update and delete.  A state is the list of rows; `id` uniqueness is the
store's key invariant and appears as a `Nodup` hypothesis where needed. -/
abbrev Store : Type := List Feature

/-- The ordering `ORDER BY priority ASC, id ASC` used by the list and
next-pending queries. -/
def featLe (a b : Feature) : Prop :=
  a.priority < b.priority ∨ (a.priority = b.priority ∧ a.id ≤ b.id)

/-- Strict version of `featLe`: strictly earlier in the queue order. -/
def featLt (a b : Feature) : Prop :=
  a.priority < b.priority ∨ (a.priority = b.priority ∧ a.id < b.id)

instance : DecidableRel featLe := fun a b => by
  unfold featLe; exact inferInstance

instance : DecidableRel featLt := fun a b => by
  unfold featLt; exact inferInstance

instance : IsTotal Feature featLe where
  total a b := by unfold featLe; omega

instance : IsTrans Feature featLe where
  trans a b c hab hbc := by unfold featLe at *; omega

instance : IsAntisymm Feature featLt where
  antisymm a b hab hba := by unfold featLt at *; omega

/-- `ORDER BY priority ASC, id ASC` over a result set. -/
def sortByPriorityId (l : List Feature) : List Feature :=
  List.insertionSort featLe l

/-- The WHERE clause of `list_features`: optional `passes` filter and
optional `category` filter. -/
def matchesFilter (pf : Option Bool) (cf : Option String) (f : Feature) : Bool :=
  (match pf with
   | none => true
   | some b => f.passes == b) &&
  (match cf with
   | none => true
   | some c => f.category == c)

/-- Response shape of `GET /features`. -/
structure ListResult where
  features : List Feature
  total : Nat
  limit : Nat
  offset : Nat
deriving Repr, DecidableEq

/-- `list_features` (`src/api/routes.py`): apply the optional filters,
count the filtered set (before pagination), then order by
`(priority, id)` and apply `OFFSET`/`LIMIT`. -/
def list_features (db : Store) (limit offset : Nat)
    (pf : Option Bool) (cf : Option String) : ListResult :=
  let filtered := db.filter (matchesFilter pf cf)
  { features := ((sortByPriorityId filtered).drop offset).take limit
    total := filtered.length
    limit := limit
    offset := offset }

/-- Error outcomes surfaced by the handlers: 422 validation failure
(pydantic) and 404 not-found (`HTTPException(status_code=404)`). -/
inductive ApiError
  | validationError
  | notFound
deriving Repr, DecidableEq

/-- `get_next_feature` (`src/api/routes.py`): first row of the
`passes = false` result set ordered by `(priority, id)`; 404 when the
result set is empty. -/
def get_next_feature (db : Store) : Except ApiError Feature :=
  match sortByPriorityId (db.filter (fun f => !f.passes)) with
  | [] => .error .notFound
  | f :: _ => .ok f

instance {ε α : Type} [DecidableEq ε] [DecidableEq α] :
    DecidableEq (Except ε α) := fun x y =>
  match x, y with
  | .ok a, .ok b =>
      if h : a = b then .isTrue (congrArg Except.ok h)
      else .isFalse (fun he => h (Except.ok.inj he))
  | .error a, .error b =>
      if h : a = b then .isTrue (congrArg Except.error h)
      else .isFalse (fun he => h (Except.error.inj he))
  | .ok _, .error _ => .isFalse (fun he => Except.noConfusion he)
  | .error _, .ok _ => .isFalse (fun he => Except.noConfusion he)

/-- Round half to even — the rounding of Python's built-in `round` — of
the fraction `n / d` (for `d > 0`), computed on integers: `f` is the
floor of `n / d` and `r2 = 2 * (n - f * d)` compares twice the
fractional part against `d`. -/
def roundHalfEvenFrac (n d : ℤ) : ℤ :=
  let f := Int.fdiv n d
  let r2 := 2 * (n - f * d)
  if r2 < d then f
  else if d < r2 then f + 1
  else if f % 2 = 0 then f else f + 1

/-- Python's `round(passing / total * 100, 1)`, represented exactly in
tenths of a percent (the result of rounding to one decimal place is a
whole number of tenths): `round((1000 * passing) / total)` half to
even. -/
def percentTenths (passing total : Int) : Int :=
  roundHalfEvenFrac (1000 * passing) total

/-- Response shape of `GET /features/stats`.  The float `percentage` is
represented exactly in tenths of a percent (`75.0` is `750`), which the
one-decimal rounding always produces. -/
structure Stats where
  passing : Nat
  total : Nat
  percentTenths : Int
deriving Repr, DecidableEq

/-- `get_stats` (`src/api/routes.py`): count all rows, count rows with
`passes = true`, and compute `round(passing / total * 100, 1)` when
`total > 0`, else `0.0`. -/
def get_stats (db : Store) : Stats :=
  let total := db.length
  let passing := (db.filter (fun f => f.passes)).length
  { passing := passing
    total := total
    percentTenths :=
      if 0 < total then percentTenths (passing : Int) (total : Int) else 0 }

/-- `get_feature` (`src/api/routes.py`): point lookup by id, 404 when
absent. -/
def get_feature (db : Store) (fid : Int) : Except ApiError Feature :=
  match db.find? (fun f => f.id == fid) with
  | none => .error .notFound
  | some f => .ok f

/-- Request body of `POST /features` (`FeatureCreate` in
`src/api/routes.py`): the caller supplies only these four fields — there
is no way to supply `passes`, `priority` or `id`. -/
structure FeatureCreate where
  category : String
  name : String
  description : String
  steps : List String
deriving Repr, DecidableEq

/-- The pydantic constraints of `FeatureCreate`:
`category`: 1–100 chars, `name`: 1–255 chars, `description`: at least
1 char, `steps`: at least 1 item.  (No constraint on the contents of the
individual steps.) -/
def validCreate (x : FeatureCreate) : Bool :=
  decide (1 ≤ x.category.length) && decide (x.category.length ≤ 100) &&
  decide (1 ≤ x.name.length) && decide (x.name.length ≤ 255) &&
  decide (1 ≤ x.description.length) &&
  decide (1 ≤ x.steps.length)

/-- The `MAX(priority)` query of the create handlers: the first row of
`SELECT priority ORDER BY priority DESC`, when the table is non-empty. -/
def maxPriority (db : Store) : Option Int :=
  match db.map (fun f => f.priority) with
  | [] => none
  | p :: ps => some (ps.foldl max p)

/-- Next priority assigned on create: `max_priority + 1` when the table
is non-empty, else `1`. -/
def nextPriority (db : Store) : Int :=
  match maxPriority db with
  | some m => m + 1
  | none => 1

/-- Modelled from the spec: id assignment is performed by the store
(`api/database.py`, not under `src/`); per the spec ids are assigned by
the store on insert, monotonically increasing.  Embedded as one more than
the largest id so far (at least 1). -/
def nextId (db : Store) : Int :=
  (db.map (fun f => f.id)).foldl max 0 + 1

/-- `create_feature` (`src/api/routes.py`).  Pydantic rejects an invalid
body with 422 before the handler runs, so nothing is inserted; otherwise
the handler inserts one row with the next priority and `passes = False`.
Returns the response together with the resulting store state. -/
def create_feature (db : Store) (x : FeatureCreate) :
    Except ApiError Feature × Store :=
  if validCreate x then
    let f : Feature :=
      { id := nextId db
        priority := nextPriority db
        category := x.category
        name := x.name
        description := x.description
        steps := x.steps
        passes := false }
    (.ok f, db ++ [f])
  else
    (.error .validationError, db)

/-- The pydantic constraints of `FeatureBulkCreate`: at least one item,
every item a valid `FeatureCreate`. -/
def validBulk (xs : List FeatureCreate) : Bool :=
  decide (1 ≤ xs.length) && xs.all validCreate

/-- `create_features_bulk` (`src/api/routes.py`).  Pydantic rejects an
invalid body with 422 before the handler runs; otherwise the handler
inserts the rows in input order with priorities `start + i` where
`start = max_priority + 1` (or 1 on an empty table), all with
`passes = False`, and returns the number created. -/
def create_features_bulk (db : Store) (xs : List FeatureCreate) :
    Except ApiError Nat × Store :=
  if validBulk xs then
    let start := nextPriority db
    let newRows := xs.enum.map (fun p =>
      { id := nextId db + p.1
        priority := start + p.1
        category := p.2.category
        name := p.2.name
        description := p.2.description
        steps := p.2.steps
        passes := false : Feature })
    (.ok xs.length, db ++ newRows)
  else
    (.error .validationError, db)

/-- Replace the `passes` field of the first row whose id matches, the
mutation performed by `update_feature` on the row found by
`.filter(Feature.id == feature_id).first()`. -/
def setPassesFirst (fid : Int) (b : Bool) : List Feature → List Feature
  | [] => []
  | f :: fs =>
      if f.id == fid then { f with passes := b } :: fs
      else f :: setPassesFirst fid b fs

/-- `update_feature` (`src/api/routes.py`): look up the row by id, 404
when absent (store untouched); otherwise set its `passes` field and
return the updated row. -/
def update_feature (db : Store) (fid : Int) (b : Bool) :
    Except ApiError Feature × Store :=
  match db.find? (fun f => f.id == fid) with
  | none => (.error .notFound, db)
  | some f => (.ok { f with passes := b }, setPassesFirst fid b db)

/-- `delete_feature` (`src/api/routes.py`): look up the row by id, 404
when absent; otherwise remove it. -/
def delete_feature (db : Store) (fid : Int) :
    Except ApiError Unit × Store :=
  match db.find? (fun f => f.id == fid) with
  | none => (.error .notFound, db)
  | some _ => (.ok (), db.filter (fun f => !(f.id == fid)))

/-!
Progress notifier (`send_progress_webhook` in `src/progress.py`).

The function's effects are made explicit: the cache file contents come in
as an argument and the rewritten contents go out in the result; the
`GET /features?passes=true&limit=1000` call comes in as an
`Except`-valued argument (error = the request raised); the webhook POST
outcome comes in as a boolean (`false` = the request raised, which the
code catches and logs).  The wall-clock timestamp is passed in as an
opaque string.
-/

/-- Parsed contents of the `.progress_cache` file:
`{"count": ..., "passing_ids": [...]}`. -/
structure CacheData where
  count : Int
  passing_ids : List Int
deriving Repr, DecidableEq

/-- State of the `.progress_cache` file: missing, present but unreadable
(any exception while parsing), or valid JSON. -/
inductive CacheFile
  | absent
  | corrupt
  | valid (d : CacheData)
deriving Repr, DecidableEq

/-- What the cache read of `send_progress_webhook` yields:
`(previous, previous_passing_ids)`.  A missing or corrupt file gives
`(0, ∅)` (on a parse exception `previous` is reset to 0 and the id set
keeps its initial empty value). -/
def readCache : CacheFile → Int × List Int
  | .absent => (0, [])
  | .corrupt => (0, [])
  | .valid d => (d.count, d.passing_ids)

/-- The fields of a feature object that `send_progress_webhook` reads
from the `GET /features?passes=true&limit=1000` response. -/
structure PassingFeature where
  id : Int
  description : String
  category : String
deriving Repr, DecidableEq

/-- The completed-feature label built per newly-passing feature:
`"[<category>] <description>"`, or just the description when the
category string is empty. -/
def completedLabel (f : PassingFeature) : String :=
  if f.category ≠ "" then "[" ++ f.category ++ "] " ++ f.description
  else f.description

/-- The loop over the passing-features response: collect all current
passing ids, and a label for each feature whose id is not among the
previously-cached passing ids.  When the API call raised, both lists
stay empty. -/
def computeCompleted (previousIds : List Int)
    (apiResult : Except Unit (List PassingFeature)) :
    List String × List Int :=
  match apiResult with
  | .error _ => ([], [])
  | .ok feats =>
      (feats.filterMap (fun f =>
          if f.id ∈ previousIds then none else some (completedLabel f)),
       feats.map (fun f => f.id))

/-- The webhook payload posted to the notification sink.  As in `Stats`,
the float `percentage` is represented exactly in tenths of a percent. -/
structure WebhookPayload where
  event : String
  passing : Int
  total : Int
  percentTenths : Int
  previous_passing : Int
  tests_completed_this_session : Int
  completed_tests : List String
  project : String
  timestamp : String
deriving Repr, DecidableEq

/-- Observable outcome of one `send_progress_webhook` invocation:
the payload whose delivery was attempted (if any), whether a delivery
failure was logged, and the resulting cache file contents. -/
structure WebhookResult where
  sent : Option WebhookPayload
  deliveryFailureLogged : Bool
  newCache : CacheFile
deriving Repr, DecidableEq

/-- `send_progress_webhook` (`src/progress.py`).
`webhookConfigured` is whether `PROGRESS_N8N_WEBHOOK_URL` is set;
`passing`/`total` are the arguments; `cache` is the current state of the
`.progress_cache` file; `apiResult` is the outcome of the
passing-features API call; `deliveryOk` is whether the webhook POST
succeeded (a raised exception is caught and logged).  Returns the
attempted payload, the logging of a delivery failure, and the rewritten
cache file. -/
def send_progress_webhook (webhookConfigured : Bool) (passing total : Int)
    (cache : CacheFile) (apiResult : Except Unit (List PassingFeature))
    (projectName now : String) (deliveryOk : Bool) : WebhookResult :=
  if webhookConfigured then
    let previous := (readCache cache).1
    let previousIds := (readCache cache).2
    if previous < passing then
      let completed := (computeCompleted previousIds apiResult).1
      let currentIds := (computeCompleted previousIds apiResult).2
      let payload : WebhookPayload :=
        { event := "test_progress"
          passing := passing
          total := total
          percentTenths :=
            if 0 < total then percentTenths passing total else 0
          previous_passing := previous
          tests_completed_this_session := passing - previous
          completed_tests := completed
          project := projectName
          timestamp := now }
      { sent := some payload
        deliveryFailureLogged := !deliveryOk
        newCache := .valid ⟨passing, currentIds⟩ }
    else
      match cache with
      | .absent =>
          let currentIds :=
            match apiResult with
            | .ok feats => feats.map (fun f => f.id)
            | .error _ => []
          { sent := none
            deliveryFailureLogged := false
            newCache := .valid ⟨passing, currentIds⟩ }
      | c => { sent := none, deliveryFailureLogged := false, newCache := c }
  else
    { sent := none, deliveryFailureLogged := false, newCache := cache }

/-!  Helper lemmas about the queue order and sorting. -/

theorem featLt_of_featLe_of_id_ne {a b : Feature}
    (h : featLe a b) (hid : a.id ≠ b.id) : featLt a b := by
  unfold featLe at h
  unfold featLt
  omega

theorem sortByPriorityId_perm (l : List Feature) :
    (sortByPriorityId l).Perm l :=
  List.perm_insertionSort featLe l

theorem sortByPriorityId_sorted (l : List Feature) :
    (sortByPriorityId l).Sorted featLe :=
  List.sorted_insertionSort featLe l

theorem sorted_featLt_of_nodup_ids {l : List Feature}
    (hs : l.Sorted featLe) (hn : (l.map (fun f => f.id)).Nodup) :
    l.Sorted featLt := by
  have hne : l.Pairwise (fun a b => a.id ≠ b.id) := List.pairwise_map.mp hn
  exact (hs.and hne).imp (fun h => featLt_of_featLe_of_id_ne h.1 h.2)

/-- Two sorted permutations of a duplicate-free (by id) result set are
equal: the `(priority, id)` order determines the rows uniquely. -/
theorem sorted_perm_unique {l₁ l₂ : List Feature}
    (hn : (l₁.map (fun f => f.id)).Nodup)
    (hp : l₁.Perm l₂) (hs₁ : l₁.Sorted featLe) (hs₂ : l₂.Sorted featLe) :
    l₁ = l₂ := by
  have hn₂ : (l₂.map (fun f => f.id)).Nodup :=
    ((hp.map (fun f => f.id)).nodup_iff).mp hn
  exact List.eq_of_perm_of_sorted hp
    (sorted_featLt_of_nodup_ids hs₁ hn)
    (sorted_featLt_of_nodup_ids hs₂ hn₂)

/-- C2: for every store state, the next-pending operation returns the
unique feature minimal in the `(priority asc, id asc)` order among the
`passes = false` rows, and fails with `NotFound` exactly when no such
row exists (all passing, or no rows at all). -/
theorem get_next_pending_spec (db : Store)
    (hids : (db.map (fun f => f.id)).Nodup) :
    (∀ f, get_next_feature db = .ok f →
        f ∈ db ∧ f.passes = false ∧
        ∀ g ∈ db, g.passes = false → g ≠ f → featLt f g) ∧
    (get_next_feature db = .error .notFound ↔ ∀ g ∈ db, g.passes = true) := by
  have hperm := sortByPriorityId_perm (db.filter (fun f => !f.passes))
  have hsort := sortByPriorityId_sorted (db.filter (fun f => !f.passes))
  cases hs : sortByPriorityId (db.filter (fun f => !f.passes)) with
  | nil =>
      rw [hs] at hperm
      have hpend : db.filter (fun f => !f.passes) = [] := hperm.symm.eq_nil
      have hall : ∀ g ∈ db, g.passes = true := by
        intro g hg
        have := List.filter_eq_nil_iff.mp hpend g hg
        simpa using this
      have hnf : get_next_feature db = .error .notFound := by
        unfold get_next_feature
        rw [hs]
      constructor
      · intro f hf
        rw [hnf] at hf
        exact Except.noConfusion hf
      · exact ⟨fun _ => hall, fun _ => hnf⟩
  | cons f rest =>
      have hok : get_next_feature db = .ok f := by
        unfold get_next_feature
        rw [hs]
      rw [hs] at hperm hsort
      have hfp : f ∈ db.filter (fun f => !f.passes) :=
        hperm.subset (List.mem_cons_self f rest)
      obtain ⟨hfdb, hfb⟩ := List.mem_filter.mp hfp
      constructor
      · intro f' hf'
        rw [hok] at hf'
        obtain rfl : f = f' := Except.ok.inj hf'
        refine ⟨hfdb, by simpa using hfb, ?_⟩
        intro g hg hgp hgf
        have hgpend : g ∈ db.filter (fun f => !f.passes) :=
          List.mem_filter.mpr ⟨hg, by simp [hgp]⟩
        have hgs : g ∈ f :: rest := hperm.symm.subset hgpend
        rcases List.mem_cons.mp hgs with he | hgrest
        · exact absurd he hgf
        · have hle : featLe f g := List.rel_of_sorted_cons hsort g hgrest
          have hid : f.id ≠ g.id := fun he =>
            hgf ((List.inj_on_of_nodup_map hids hg hfdb he.symm))
          exact featLt_of_featLe_of_id_ne hle hid
      · constructor
        · intro he
          rw [hok] at he
          exact Except.noConfusion he
        · intro hall
          exfalso
          have : f.passes = true := hall f hfdb
          simp [this] at hfb

/-- Witness for C2 at a concrete store: the single feature is passing,
so the next-pending query fails with `NotFound`. -/
theorem get_next_pending_spec_witness :
    get_next_feature [⟨3, 1, "c", "n", "d", ["s"], true⟩] = .error .notFound :=
  (get_next_pending_spec [⟨3, 1, "c", "n", "d", ["s"], true⟩]
    (by decide)).2.mpr (by decide)

/-- C7: for every store state and list call, the returned page is the
filtered set in `(priority, id)` order restricted to the
`offset`/`limit` window, and `total` is the full filtered count,
independent of the window. -/
theorem list_features_spec (db : Store) (limit offset : Nat)
    (pb : Option Bool) (cb : Option String) (l : List Feature)
    (hids : (db.map (fun f => f.id)).Nodup)
    (hlim1 : 1 ≤ limit) (hlim2 : limit ≤ 1000)
    (hperm : l.Perm (db.filter (matchesFilter pb cb)))
    (hsort : l.Sorted featLe) :
    (list_features db limit offset pb cb).features = (l.drop offset).take limit ∧
    (list_features db limit offset pb cb).total
      = (db.filter (matchesFilter pb cb)).length := by
  have hsub : (db.filter (matchesFilter pb cb)).Sublist db :=
    List.filter_sublist db
  have hfil : ((db.filter (matchesFilter pb cb)).map (fun f => f.id)).Nodup :=
    (hsub.map (fun f => f.id)).nodup hids
  have hnl : (l.map (fun f => f.id)).Nodup :=
    ((hperm.map (fun f => f.id)).nodup_iff).mpr hfil
  have heq : l = sortByPriorityId (db.filter (matchesFilter pb cb)) :=
    sorted_perm_unique hnl
      (hperm.trans (sortByPriorityId_perm _).symm)
      hsort (sortByPriorityId_sorted _)
  constructor
  · simp only [list_features]
    rw [heq]
  · rfl

/-- Witness for C7: `limit = 2`, `offset = 1` over five features ordered
by `(priority, id)` returns exactly positions 2–3 and `total = 5`. -/
theorem list_features_spec_witness :
    (list_features
        [⟨1, 5, "c", "n", "d", ["s"], false⟩, ⟨2, 4, "c", "n", "d", ["s"], false⟩,
         ⟨3, 3, "c", "n", "d", ["s"], false⟩, ⟨4, 2, "c", "n", "d", ["s"], false⟩,
         ⟨5, 1, "c", "n", "d", ["s"], false⟩] 2 1 none none).features
      = (([⟨5, 1, "c", "n", "d", ["s"], false⟩, ⟨4, 2, "c", "n", "d", ["s"], false⟩,
           ⟨3, 3, "c", "n", "d", ["s"], false⟩, ⟨2, 4, "c", "n", "d", ["s"], false⟩,
           ⟨1, 5, "c", "n", "d", ["s"], false⟩] : List Feature).drop 1).take 2 ∧
    (list_features
        [⟨1, 5, "c", "n", "d", ["s"], false⟩, ⟨2, 4, "c", "n", "d", ["s"], false⟩,
         ⟨3, 3, "c", "n", "d", ["s"], false⟩, ⟨4, 2, "c", "n", "d", ["s"], false⟩,
         ⟨5, 1, "c", "n", "d", ["s"], false⟩] 2 1 none none).total
      = (([⟨1, 5, "c", "n", "d", ["s"], false⟩, ⟨2, 4, "c", "n", "d", ["s"], false⟩,
           ⟨3, 3, "c", "n", "d", ["s"], false⟩, ⟨4, 2, "c", "n", "d", ["s"], false⟩,
           ⟨5, 1, "c", "n", "d", ["s"], false⟩] : List Feature).filter
            (matchesFilter none none)).length :=
  list_features_spec
    [⟨1, 5, "c", "n", "d", ["s"], false⟩, ⟨2, 4, "c", "n", "d", ["s"], false⟩,
     ⟨3, 3, "c", "n", "d", ["s"], false⟩, ⟨4, 2, "c", "n", "d", ["s"], false⟩,
     ⟨5, 1, "c", "n", "d", ["s"], false⟩] 2 1 none none
    [⟨5, 1, "c", "n", "d", ["s"], false⟩, ⟨4, 2, "c", "n", "d", ["s"], false⟩,
     ⟨3, 3, "c", "n", "d", ["s"], false⟩, ⟨2, 4, "c", "n", "d", ["s"], false⟩,
     ⟨1, 5, "c", "n", "d", ["s"], false⟩]
    (by decide) (by decide) (by decide) (by decide) (by decide)

/-- C6: for every store state the stats operation returns the passing
count, the total count, and `round(passing / total * 100, 1)` when
`total > 0` and `0.0` when `total = 0` (so it never divides by zero);
with `passing = 3, total = 4` it returns `75.0`. -/
theorem get_stats_spec :
    (∀ db : Store,
        (get_stats db).passing = (db.filter (fun f => f.passes)).length ∧
        (get_stats db).total = db.length ∧
        (get_stats db).percentTenths =
          (if 0 < db.length
           then percentTenths ((db.filter (fun f => f.passes)).length : Int)
                  (db.length : Int)
           else 0)) ∧
    get_stats [] = { passing := 0, total := 0, percentTenths := 0 } ∧
    get_stats
        [⟨1, 1, "c", "n", "d", ["s"], true⟩, ⟨2, 2, "c", "n", "d", ["s"], true⟩,
         ⟨3, 3, "c", "n", "d", ["s"], true⟩, ⟨4, 4, "c", "n", "d", ["s"], false⟩]
      = { passing := 3, total := 4, percentTenths := 750 } :=
  ⟨fun _ => ⟨rfl, rfl, rfl⟩, by decide, by decide⟩

/-!  Helper lemmas for the update operation. -/

/-- Under distinct ids, the row found by the id lookup is the member
with that id. -/
theorem find?_id_of_mem {fid : Int} :
    ∀ {db : Store}, (db.map (fun f => f.id)).Nodup →
      ∀ {f : Feature}, f ∈ db → f.id = fid →
        db.find? (fun g => g.id == fid) = some f := by
  intro db
  induction db with
  | nil => intro _ f hf; exact absurd hf (List.not_mem_nil f)
  | cons g rest ih =>
      intro hn f hf hfid
      rw [List.map_cons, List.nodup_cons] at hn
      by_cases hg : g.id = fid
      · have hgf : g = f := by
          rcases List.mem_cons.mp hf with he | hrest
          · exact he.symm
          · exfalso
            apply hn.1
            have : g.id = f.id := by rw [hg, hfid]
            rw [this]
            exact List.mem_map_of_mem (fun f => f.id) hrest
        rw [List.find?_cons_of_pos _ (by simp [hg])]
        rw [hgf]
      · have hrest : f ∈ rest := by
          rcases List.mem_cons.mp hf with he | hrest
          · exact absurd (he ▸ hfid) hg
          · exact hrest
        rw [List.find?_cons_of_neg _ (by simp [hg])]
        exact ih hn.2 hrest hfid

/-- Under distinct ids, mutating the `passes` field of the first row
with a given id is the pointwise update of every row with that id. -/
theorem setPassesFirst_eq_map (fid : Int) (b : Bool) :
    ∀ (db : Store), (db.map (fun f => f.id)).Nodup →
      setPassesFirst fid b db
        = db.map (fun g => if g.id = fid then { g with passes := b } else g) := by
  intro db
  induction db with
  | nil => intro _; rfl
  | cons g rest ih =>
      intro hn
      rw [List.map_cons, List.nodup_cons] at hn
      by_cases hg : g.id = fid
      · have hrest : ∀ x ∈ rest, x.id ≠ fid := by
          intro x hx he
          apply hn.1
          rw [hg, ← he]
          exact List.mem_map_of_mem (fun f => f.id) hx
        simp only [setPassesFirst, List.map_cons]
        rw [if_pos hg]
        have hbeq : (g.id == fid) = true := by simp [hg]
        rw [hbeq]
        simp only [if_true]
        congr 1
        calc rest = rest.map id := (List.map_id rest).symm
          _ = rest.map (fun g => if g.id = fid then { g with passes := b } else g) :=
            List.map_congr_left (fun x hx => by
              rw [if_neg (hrest x hx)]
              rfl)
      · simp only [setPassesFirst, List.map_cons]
        rw [if_neg hg]
        have hbeq : (g.id == fid) = false := by simp [hg]
        rw [hbeq]
        simp only [Bool.false_eq_true, if_false]
        rw [ih hn.2]

/-- C9: for every existing feature id, the update-passes operation
returns the updated row and changes only the `passes` field of the row
with that id, leaving every other field and every other row unchanged;
for an absent id it fails with `NotFound` and changes nothing. -/
theorem update_passes_spec (db : Store) (fid : Int) (b : Bool)
    (hids : (db.map (fun f => f.id)).Nodup) :
    (∀ f ∈ db, f.id = fid →
        update_feature db fid b
          = (.ok { f with passes := b },
             db.map (fun g => if g.id = fid then { g with passes := b } else g))) ∧
    ((∀ f ∈ db, f.id ≠ fid) →
        update_feature db fid b = (.error .notFound, db)) := by
  constructor
  · intro f hf hfid
    unfold update_feature
    rw [find?_id_of_mem hids hf hfid, setPassesFirst_eq_map fid b db hids]
  · intro hnone
    unfold update_feature
    rw [List.find?_eq_none.mpr (fun x hx => by simp [hnone x hx])]

/-- Witness for C9 at a concrete store: updating id 2 flips only that
row's `passes` field. -/
theorem update_passes_spec_witness :
    update_feature
        [⟨1, 1, "c", "n", "d", ["s"], false⟩, ⟨2, 2, "c", "n", "d", ["s"], false⟩]
        2 true
      = (.ok { (⟨2, 2, "c", "n", "d", ["s"], false⟩ : Feature) with passes := true },
         ([⟨1, 1, "c", "n", "d", ["s"], false⟩,
           ⟨2, 2, "c", "n", "d", ["s"], false⟩] : Store).map
           (fun g => if g.id = 2 then { g with passes := true } else g)) :=
  (update_passes_spec
      [⟨1, 1, "c", "n", "d", ["s"], false⟩, ⟨2, 2, "c", "n", "d", ["s"], false⟩]
      2 true (by decide)).1
    ⟨2, 2, "c", "n", "d", ["s"], false⟩ (by decide) rfl

/-!  Helper lemmas for creation. -/

theorem le_foldl_max : ∀ (ps : List Int) (p : Int), p ≤ ps.foldl max p
  | [], _ => le_refl _
  | q :: qs, p => le_trans (le_max_left p q) (le_foldl_max qs (max p q))

/-- When no existing priority is negative, the assigned next priority is
`max(existing priority, 0) + 1` (with an empty maximum read as 0). -/
theorem nextPriority_eq_spec (db : Store)
    (hpr : ∀ f ∈ db, 0 ≤ f.priority) :
    nextPriority db = (db.map (fun f => f.priority)).foldl max 0 + 1 := by
  cases db with
  | nil => rfl
  | cons f fs =>
      have h1 : maxPriority (f :: fs)
          = some ((fs.map (fun g => g.priority)).foldl max f.priority) := rfl
      unfold nextPriority
      rw [h1, List.map_cons, List.foldl_cons,
        max_eq_right (hpr f (List.mem_cons_self f fs))]

/-- An input violating one of the enforced bounds fails the pydantic
validation. -/
theorem validCreate_false {x : FeatureCreate}
    (h : x.category.length = 0 ∨ 100 < x.category.length ∨
         x.name.length = 0 ∨ 255 < x.name.length ∨
         x.description.length = 0 ∨ x.steps.length = 0) :
    validCreate x = false := by
  cases hb : validCreate x
  · rfl
  · exfalso
    simp only [validCreate, Bool.and_eq_true, decide_eq_true_eq] at hb
    rcases h with h | h | h | h | h | h <;> omega

/-- C3 counterexample: a create input whose `steps` contains an empty
string passes validation and a record is inserted, rather than being
rejected with a `ValidationError`. -/
theorem empty_step_accepted_counterexample :
    validCreate ⟨"c", "n", "d", [""]⟩ = true ∧
    (create_feature [] ⟨"c", "n", "d", [""]⟩).1
      = .ok ⟨1, 1, "c", "n", "d", [""], false⟩ ∧
    (create_feature [] ⟨"c", "n", "d", [""]⟩).2
      = [⟨1, 1, "c", "n", "d", [""], false⟩] := by
  decide

/-- C3 (amended): an empty `category`/`name`/`description`, a `category`
over 100 chars, a `name` over 255 chars, an empty `steps` list, or an
empty bulk list is rejected with a `ValidationError` and the store is
left unchanged (no record inserted). -/
theorem validation_rejects_before_insert :
    (∀ (db : Store) (x : FeatureCreate),
        x.category.length = 0 ∨ 100 < x.category.length ∨
        x.name.length = 0 ∨ 255 < x.name.length ∨
        x.description.length = 0 ∨ x.steps.length = 0 →
        create_feature db x = (.error .validationError, db)) ∧
    (∀ (db : Store) (xs : List FeatureCreate),
        xs.length = 0 ∨
          (∃ x ∈ xs,
            x.category.length = 0 ∨ 100 < x.category.length ∨
            x.name.length = 0 ∨ 255 < x.name.length ∨
            x.description.length = 0 ∨ x.steps.length = 0) →
        create_features_bulk db xs = (.error .validationError, db)) := by
  constructor
  · intro db x h
    unfold create_feature
    rw [if_neg (show ¬validCreate x = true by simp [validCreate_false h])]
  · intro db xs h
    have hvb : validBulk xs = false := by
      rcases h with hlen | ⟨x, hx, hbad⟩
      · simp [validBulk, hlen]
      · have : xs.all validCreate = false := by
          cases ha : xs.all validCreate
          · rfl
          · exfalso
            have := List.all_eq_true.mp ha x hx
            rw [validCreate_false hbad] at this
            exact Bool.noConfusion this
        simp [validBulk, this]
    unfold create_features_bulk
    rw [if_neg (show ¬validBulk xs = true by simp [hvb])]

/-- Witness for C3 (amended): an empty `category` is rejected and the
store stays empty. -/
theorem validation_rejects_before_insert_witness :
    create_feature [] ⟨"", "n", "d", ["s"]⟩ = (.error .validationError, []) :=
  validation_rejects_before_insert.1 [] ⟨"", "n", "d", ["s"]⟩ (Or.inl rfl)

/-- C4: a valid bulk create of N features over a store with no negative
priorities leaves the existing rows in place, assigns priorities
`start, start + 1, …, start + N - 1` in input order with
`start = max(existing priority, 0) + 1`, and returns `created = N`. -/
theorem create_bulk_priorities (db : Store) (xs : List FeatureCreate)
    (hv : validBulk xs = true)
    (hpr : ∀ f ∈ db, 0 ≤ f.priority) :
    (create_features_bulk db xs).1 = .ok xs.length ∧
    (create_features_bulk db xs).2.take db.length = db ∧
    ((create_features_bulk db xs).2.drop db.length).map (fun f => f.priority)
      = (List.range xs.length).map
          (fun (i : Nat) =>
            ((db.map (fun f => f.priority)).foldl max 0 + 1) + (i : Int)) ∧
    ((create_features_bulk db xs).2.drop db.length).map
        (fun f => (f.category, f.name, f.description, f.steps))
      = xs.map (fun x => (x.category, x.name, x.description, x.steps)) := by
  unfold create_features_bulk
  rw [if_pos hv, ← nextPriority_eq_spec db hpr]
  refine ⟨rfl, ?_, ?_, ?_⟩
  · show (db ++ _).take db.length = db
    rw [List.take_left]
  · show ((db ++ _).drop db.length).map (fun f => f.priority) = _
    rw [List.drop_left, List.map_map]
    conv_rhs => rw [← List.enum_map_fst xs, List.map_map]
    rfl
  · show ((db ++ _).drop db.length).map
        (fun f => (f.category, f.name, f.description, f.steps)) = _
    rw [List.drop_left, List.map_map]
    conv_rhs => rw [← List.enum_map_snd xs, List.map_map]
    rfl

/-- Witness for C4: bulk-creating two features over a one-feature store
with maximal priority 7 assigns priorities 8 and 9 in input order. -/
theorem create_bulk_priorities_witness :
    (create_features_bulk [⟨1, 7, "c", "n", "d", ["s"], false⟩]
        [⟨"a", "na", "da", ["sa"]⟩, ⟨"b", "nb", "db", ["sb"]⟩]).1
      = .ok ([⟨"a", "na", "da", ["sa"]⟩,
              (⟨"b", "nb", "db", ["sb"]⟩ : FeatureCreate)] : List FeatureCreate).length ∧
    (create_features_bulk [⟨1, 7, "c", "n", "d", ["s"], false⟩]
        [⟨"a", "na", "da", ["sa"]⟩, ⟨"b", "nb", "db", ["sb"]⟩]).2.take
        ([⟨1, 7, "c", "n", "d", ["s"], false⟩] : Store).length
      = [⟨1, 7, "c", "n", "d", ["s"], false⟩] ∧
    ((create_features_bulk [⟨1, 7, "c", "n", "d", ["s"], false⟩]
        [⟨"a", "na", "da", ["sa"]⟩, ⟨"b", "nb", "db", ["sb"]⟩]).2.drop
        ([⟨1, 7, "c", "n", "d", ["s"], false⟩] : Store).length).map (fun f => f.priority)
      = (List.range ([⟨"a", "na", "da", ["sa"]⟩,
              (⟨"b", "nb", "db", ["sb"]⟩ : FeatureCreate)] : List FeatureCreate).length).map
          (fun (i : Nat) => ((([⟨1, 7, "c", "n", "d", ["s"], false⟩] : Store).map
              (fun f => f.priority)).foldl max 0 + 1) + (i : Int)) ∧
    ((create_features_bulk [⟨1, 7, "c", "n", "d", ["s"], false⟩]
        [⟨"a", "na", "da", ["sa"]⟩, ⟨"b", "nb", "db", ["sb"]⟩]).2.drop
        ([⟨1, 7, "c", "n", "d", ["s"], false⟩] : Store).length).map
        (fun f => (f.category, f.name, f.description, f.steps))
      = ([⟨"a", "na", "da", ["sa"]⟩,
          (⟨"b", "nb", "db", ["sb"]⟩ : FeatureCreate)] : List FeatureCreate).map
          (fun x => (x.category, x.name, x.description, x.steps)) :=
  create_bulk_priorities [⟨1, 7, "c", "n", "d", ["s"], false⟩]
    [⟨"a", "na", "da", ["sa"]⟩, ⟨"b", "nb", "db", ["sb"]⟩]
    (by decide) (by decide)

/-- C5: every feature created by the single or bulk create operation has
`passes = false`, and its priority is assigned from the store state (the
request body has no `passes`, `priority` or `id` field to supply). -/
theorem creation_initializes_passes_false :
    (∀ (db : Store) (x : FeatureCreate) (f : Feature) (db2 : Store),
        create_feature db x = (.ok f, db2) →
        f.passes = false ∧ f.priority = nextPriority db ∧ db2 = db ++ [f]) ∧
    (∀ (db : Store) (xs : List FeatureCreate) (n : Nat) (db2 : Store),
        create_features_bulk db xs = (.ok n, db2) →
        (∀ f ∈ db2.drop db.length, f.passes = false) ∧
        (db2.drop db.length).map (fun f => f.priority)
          = (List.range n).map (fun (i : Nat) => nextPriority db + (i : Int))) := by
  constructor
  · intro db x f db2 h
    unfold create_feature at h
    cases hv : validCreate x
    · rw [if_neg (show ¬validCreate x = true by simp [hv])] at h
      exact absurd h (by simp)
    · rw [if_pos hv] at h
      simp only [Prod.mk.injEq, Except.ok.injEq] at h
      obtain ⟨h1, h2⟩ := h
      subst h1
      exact ⟨rfl, rfl, h2.symm⟩
  · intro db xs n db2 h
    unfold create_features_bulk at h
    cases hv : validBulk xs
    · rw [if_neg (show ¬validBulk xs = true by simp [hv])] at h
      exact absurd h (by simp)
    · rw [if_pos hv] at h
      simp only [Prod.mk.injEq, Except.ok.injEq] at h
      obtain ⟨h1, h2⟩ := h
      subst h1
      subst h2
      rw [List.drop_left]
      constructor
      · intro f hf
        obtain ⟨p, _, rfl⟩ := List.mem_map.mp hf
        rfl
      · rw [List.map_map]
        conv_rhs => rw [← List.enum_map_fst xs, List.map_map]
        rfl

/-- Witness for C5: the single create over the empty store yields a
record with `passes = false`. -/
theorem creation_initializes_passes_false_witness :
    (⟨1, 1, "c", "n", "d", ["s"], false⟩ : Feature).passes = false ∧
    (⟨1, 1, "c", "n", "d", ["s"], false⟩ : Feature).priority = nextPriority [] ∧
    ([⟨1, 1, "c", "n", "d", ["s"], false⟩] : Store)
      = [] ++ [⟨1, 1, "c", "n", "d", ["s"], false⟩] :=
  creation_initializes_passes_false.1 [] ⟨"c", "n", "d", ["s"]⟩
    ⟨1, 1, "c", "n", "d", ["s"], false⟩ [⟨1, 1, "c", "n", "d", ["s"], false⟩]
    (by decide)

/-- The priority-nonnegativity hypothesis of `create_bulk_priorities` is
an invariant of the service: both create operations only add rows with
nonnegative priority (and the other operations do not change any
priority), so every store reachable through the API satisfies it. -/
theorem create_preserves_nonneg_priority (db : Store)
    (hpr : ∀ f ∈ db, 0 ≤ f.priority) :
    (∀ x, ∀ f ∈ (create_feature db x).2, 0 ≤ f.priority) ∧
    (∀ xs, ∀ f ∈ (create_features_bulk db xs).2, 0 ≤ f.priority) := by
  have hnext : 0 ≤ nextPriority db := by
    unfold nextPriority maxPriority
    cases db with
    | nil => simp
    | cons g gs =>
        simp only [List.map_cons]
        have h1 := le_foldl_max (gs.map (fun f => f.priority)) g.priority
        have h2 := hpr g (List.mem_cons_self g gs)
        omega
  constructor
  · intro x f hf
    unfold create_feature at hf
    cases hv : validCreate x
    · rw [if_neg (show ¬validCreate x = true by simp [hv])] at hf
      exact hpr f hf
    · rw [if_pos hv] at hf
      rcases List.mem_append.mp hf with hl | hr
      · exact hpr f hl
      · rcases List.mem_singleton.mp hr with rfl
        simpa using hnext
  · intro xs f hf
    unfold create_features_bulk at hf
    cases hv : validBulk xs
    · rw [if_neg (show ¬validBulk xs = true by simp [hv])] at hf
      exact hpr f hf
    · rw [if_pos hv] at hf
      rcases List.mem_append.mp hf with hl | hr
      · exact hpr f hl
      · obtain ⟨p, _, rfl⟩ := List.mem_map.mp hr
        have : (0 : Int) ≤ (p.1 : Int) := Int.natCast_nonneg p.1
        simp only
        omega

/-- C1: starting from cache `{count: 2, passing_ids: [1, 2]}` with the
current state passing 3 of 6 and passing ids `{1, 2, 5}`, one invocation
attempts exactly one notification listing only feature 5 and rewrites
the cache to `{count: 3, passing_ids: [1, 2, 5]}`; a second invocation
with the same current state attempts no notification and leaves the
cache unchanged — whatever the delivery outcomes. -/
theorem progress_notification_once :
    ∀ d₁ d₂ : Bool,
      (send_progress_webhook true 3 6 (.valid ⟨2, [1, 2]⟩)
          (.ok [⟨1, "d1", "x"⟩, ⟨2, "d2", "y"⟩, ⟨5, "d5", "z"⟩])
          "proj" "t" d₁).sent
        = some { event := "test_progress", passing := 3, total := 6,
                 percentTenths := 500, previous_passing := 2,
                 tests_completed_this_session := 1,
                 completed_tests := ["[z] d5"], project := "proj",
                 timestamp := "t" } ∧
      (send_progress_webhook true 3 6 (.valid ⟨2, [1, 2]⟩)
          (.ok [⟨1, "d1", "x"⟩, ⟨2, "d2", "y"⟩, ⟨5, "d5", "z"⟩])
          "proj" "t" d₁).newCache
        = .valid ⟨3, [1, 2, 5]⟩ ∧
      (send_progress_webhook true 3 6 (.valid ⟨3, [1, 2, 5]⟩)
          (.ok [⟨1, "d1", "x"⟩, ⟨2, "d2", "y"⟩, ⟨5, "d5", "z"⟩])
          "proj" "t" d₂).sent
        = none ∧
      (send_progress_webhook true 3 6 (.valid ⟨3, [1, 2, 5]⟩)
          (.ok [⟨1, "d1", "x"⟩, ⟨2, "d2", "y"⟩, ⟨5, "d5", "z"⟩])
          "proj" "t" d₂).newCache
        = .valid ⟨3, [1, 2, 5]⟩ := by
  intro d₁ d₂
  cases d₁ <;> cases d₂ <;> decide

/-- C8: whenever a notification is attempted, the delivery outcome never
reaches the caller — it only determines whether a failure is logged —
and the cache is rewritten to
`{count: passing, passing_ids: current_passing_ids}` either way. -/
theorem webhook_delivery_best_effort (wc : Bool) (p t : Int)
    (cache : CacheFile) (api : Except Unit (List PassingFeature))
    (proj now : String) (d : Bool)
    (h : (send_progress_webhook wc p t cache api proj now d).sent.isSome
          = true) :
    (send_progress_webhook wc p t cache api proj now d).newCache
      = .valid ⟨p, (computeCompleted (readCache cache).2 api).2⟩ ∧
    (send_progress_webhook wc p t cache api proj now d).sent
      = (send_progress_webhook wc p t cache api proj now (!d)).sent ∧
    (send_progress_webhook wc p t cache api proj now d).newCache
      = (send_progress_webhook wc p t cache api proj now (!d)).newCache ∧
    (send_progress_webhook wc p t cache api proj now d).deliveryFailureLogged
      = !d := by
  cases wc with
  | false => simp [send_progress_webhook] at h
  | true =>
      by_cases hlt : (readCache cache).1 < p
      · refine ⟨?_, ?_, ?_, ?_⟩ <;> simp [send_progress_webhook, hlt]
      · exfalso
        cases cache <;> simp [send_progress_webhook, hlt] at h

/-- Witness for C8: with an absent cache and one passing feature, a
notification is attempted after a failed delivery and the cache is still
rewritten. -/
theorem webhook_delivery_best_effort_witness :
    (send_progress_webhook true 1 1 .absent (.ok [⟨1, "d1", "x"⟩])
        "proj" "t" false).newCache
      = .valid ⟨1, (computeCompleted (readCache .absent).2
          (.ok [⟨1, "d1", "x"⟩])).2⟩ ∧
    (send_progress_webhook true 1 1 .absent (.ok [⟨1, "d1", "x"⟩])
        "proj" "t" false).sent
      = (send_progress_webhook true 1 1 .absent (.ok [⟨1, "d1", "x"⟩])
          "proj" "t" (!false)).sent ∧
    (send_progress_webhook true 1 1 .absent (.ok [⟨1, "d1", "x"⟩])
        "proj" "t" false).newCache
      = (send_progress_webhook true 1 1 .absent (.ok [⟨1, "d1", "x"⟩])
          "proj" "t" (!false)).newCache ∧
    (send_progress_webhook true 1 1 .absent (.ok [⟨1, "d1", "x"⟩])
        "proj" "t" false).deliveryFailureLogged = !false :=
  webhook_delivery_best_effort true 1 1 .absent (.ok [⟨1, "d1", "x"⟩])
    "proj" "t" false (by decide)

/-- C10: when the current passing count exceeds the cached count but the
passing-features query raises, the notification is still attempted with
an empty completed list, and the cache file is overwritten with
`{count: passing, passing_ids: []}` — the persisted id set is emptied
even though features are currently passing. -/
theorem webhook_api_failure_empties_cache (p t : Int) (cache : CacheFile)
    (proj now : String) (d : Bool)
    (h : (readCache cache).1 < p) :
    send_progress_webhook true p t cache (.error ()) proj now d
      = { sent := some
            { event := "test_progress", passing := p, total := t,
              percentTenths := if 0 < t then percentTenths p t else 0,
              previous_passing := (readCache cache).1,
              tests_completed_this_session := p - (readCache cache).1,
              completed_tests := [], project := proj, timestamp := now }
          deliveryFailureLogged := !d
          newCache := .valid ⟨p, []⟩ } := by
  simp [send_progress_webhook, h, computeCompleted]

/-- Witness for C10: cache `{count: 2, passing_ids: [1, 2]}`, passing 3
of 6, failing features query. -/
theorem webhook_api_failure_empties_cache_witness :
    send_progress_webhook true 3 6 (.valid ⟨2, [1, 2]⟩) (.error ())
        "proj" "t" true
      = { sent := some
            { event := "test_progress", passing := 3, total := 6,
              percentTenths := if 0 < (6 : Int) then percentTenths 3 6 else 0,
              previous_passing := (readCache (.valid ⟨2, [1, 2]⟩)).1,
              tests_completed_this_session
                := 3 - (readCache (.valid ⟨2, [1, 2]⟩)).1,
              completed_tests := [], project := "proj", timestamp := "t" }
          deliveryFailureLogged := !true
          newCache := .valid ⟨3, []⟩ } :=
  webhook_api_failure_empties_cache 3 6 (.valid ⟨2, [1, 2]⟩) "proj" "t" true
    (by decide)

end AutoCoding
